import Mathlib

/-!
Shallow embedding of the PromSketch-Standalone metrics ingestion pipeline
(`src/ExporterStarter/custom_ingester_noDB_test3_dynamic.py`, with the
`custom_ingester_noDB.py` variant where a claim refers to it), together with
proofs and refutations of the spec's claims about it.

Python strings are embedded as `List Char`; Python's unbounded `int` as `Int`
(`Nat` where the source value is manifestly non-negative); Python `float`
values that are merely carried, never computed with, as `ℚ`; raising code as
`Option`-returning functions.
-/

namespace PromSketch

/-- A Python `str`, embedded as its character sequence. -/
abbrev PyStr := List Char

/-- True of the characters the embedding treats as `int()`-strippable
whitespace (Python strips any unicode whitespace; the ASCII ones suffice for
the strings this pipeline handles). -/
def isWs (c : Char) : Bool := c.isWhitespace

/-- Strip leading and trailing whitespace, as Python `int()` does before
parsing its argument. -/
def trimWs (l : PyStr) : PyStr :=
  ((l.dropWhile isWs).reverse.dropWhile isWs).reverse

/-- True when every character is an ASCII decimal digit. -/
def allDigits (l : PyStr) : Bool := l.all Char.isDigit

/-- Value of a non-empty decimal digit string. -/
def digitsVal (l : PyStr) : Nat :=
  l.foldl (fun n c => 10 * n + (c.toNat - 48)) 0

/-- Parse an unsigned run of decimal digits; `none` when empty or when any
character is not a digit (Python `int()` raises `ValueError` there). -/
def parseDigits (l : PyStr) : Option Nat :=
  if l.isEmpty then none
  else if allDigits l then some (digitsVal l) else none

/-- Body of `pyParseInt` after whitespace stripping: allow one leading sign,
then require a non-empty digit run. -/
def pyParseIntTrimmed : PyStr → Option Int
  | [] => none
  | c :: rest =>
      if c = '-' then (parseDigits rest).map (fun n => -(n : Int))
      else if c = '+' then (parseDigits rest).map (fun n => ((n : Nat) : Int))
      else (parseDigits (c :: rest)).map (fun n => ((n : Nat) : Int))

/-- Python `int(s)` on a string: strip surrounding whitespace, allow one
leading sign, then require a non-empty digit run; `none` models the
`ValueError` raised otherwise. -/
def pyParseInt (s : PyStr) : Option Int :=
  pyParseIntTrimmed (trimWs s)

/-- Python `s.split(sep)` for a single-character separator: every occurrence
splits, empty fields are kept, and the result is never empty. -/
def splitOnChar (sep : Char) : PyStr → List PyStr
  | [] => [[]]
  | x :: xs =>
      match splitOnChar sep xs with
      | [] => [[]]
      | g :: gs => if x = sep then [] :: g :: gs else (x :: g) :: gs

/-- The shard router `machine_to_port` of
`custom_ingester_noDB_test3_dynamic.py` lines 42-49 (identical in
`custom_ingester_noDB.py` lines 49-55): `idx = int(str(mid).split("_")[1])`
with any exception (IndexError from `[1]` or ValueError from `int`) defaulted
to `idx = 0`, then `PROMSKETCH_BASE_PORT + idx // MACHINES_PER_PORT` with
Python's floor division. The two module-level config globals are passed as
arguments. -/
def machine_to_port (basePort machinesPerPort : Int) (machineid : PyStr) : Int :=
  let toks := splitOnChar '_' machineid
  let idx : Int :=
    match toks[1]? with
    | none => 0
    | some t => (pyParseInt t).getD 0
  basePort + Int.fdiv idx machinesPerPort

/-- The reference routing formula in the spec's words (§4.3): parse the
trailing integer of the key — the last underscore-separated token — defaulting
to 0 on parse failure, and compute `base_port + (index div series_per_shard)`
(floor division, matching Python). This is the spec-side definition for the
refinement claim C1; `machine_to_port` above is the source-side one. -/
def route_spec (basePort seriesPerShard : Int) (key : PyStr) : Int :=
  let idx : Int :=
    match (splitOnChar '_' key).getLast? with
    | none => 0
    | some t => (pyParseInt t).getD 0
  basePort + Int.fdiv idx seriesPerShard

def keyMachine0 : PyStr := "machine_0".data
def keyMachine199 : PyStr := "machine_199".data
def keyMachine200 : PyStr := "machine_200".data
def keyMachine523 : PyStr := "machine_523".data
def keyUnexpected : PyStr := "unexpected_format".data
def keyTwoIdx : PyStr := "machine_200_400".data
def keyNoTrail : PyStr := "a_500_x".data

/-- One parsed metric sample as built at lines 82-86: `Name`, `Labels`
(a Python dict with unique keys, embedded as an association list), `Value`
(a Python float that is only ever carried, embedded as `ℚ`). -/
structure SampleRecord where
  name : PyStr
  labels : List (PyStr × PyStr)
  value : ℚ
deriving DecidableEq

/-- Python `d.get(k, default)` on a label dict (association list, first and
only binding of a key wins since dict keys are unique). -/
def labelsGet (labels : List (PyStr × PyStr)) (k d : PyStr) : PyStr :=
  match labels.lookup k with
  | some v => v
  | none => d

def machineidKey : PyStr := "machineid".data
def defaultMachineid : PyStr := "machine_0".data

/-- The port a sample is bucketed to, lines 169-170:
`machine_to_port(m["Labels"].get("machineid", "machine_0"))`. -/
def bucketFor (basePort machinesPerPort : Int) (m : SampleRecord) : Int :=
  machine_to_port basePort machinesPerPort (labelsGet m.labels machineidKey defaultMachineid)

/-- State of the bucketing loop at lines 167-174: the `defaultdict(list)`
`buckets` (as a total function, absent keys reading `[]`), plus the ordered
list of samples that took the `[SKIP]` (blocklisted, logged) branch. -/
structure RouteState where
  buckets : Int → List SampleRecord
  skipped : List SampleRecord

/-- One iteration of the `for m in metrics_buffer` loop, lines 168-174:
resolve the port; if it is blocklisted, log and skip the sample; otherwise
append the sample to that port's bucket. -/
def routeStep (basePort machinesPerPort : Int) (blocklist : List Int)
    (st : RouteState) (m : SampleRecord) : RouteState :=
  let port := bucketFor basePort machinesPerPort m
  if port ∈ blocklist then { st with skipped := st.skipped ++ [m] }
  else { st with buckets := fun q => if q = port then st.buckets q ++ [m] else st.buckets q }

/-- The whole bucketing loop over the cycle's merged `metrics_buffer`. -/
def routeAll (basePort machinesPerPort : Int) (blocklist : List Int)
    (buf : List SampleRecord) : RouteState :=
  buf.foldl (routeStep basePort machinesPerPort blocklist) ⟨fun _ => [], []⟩

/-- Drop all but the first occurrence of each element, keeping
first-occurrence order — how a Python dict keeps its keys. -/
def dedupFirst : List Int → List Int
  | [] => []
  | x :: xs => x :: (dedupFirst xs).filter (fun y => decide (¬ y = x))

/-- Insert into an ascending list, preserving ascending order. -/
def insortInt (x : Int) : List Int → List Int
  | [] => [x]
  | y :: ys => if x ≤ y then x :: y :: ys else y :: insortInt x ys

/-- Sort ascending (insertion sort) — the `sorted(...)` of line 176. -/
def sortInts (l : List Int) : List Int := l.foldr insortInt []

/-- The ports holding at least one sample, i.e. the keys of the `defaultdict`
after the loop (a blocklisted port is never touched, so never becomes a key),
in first-insertion order as a Python dict keeps them. -/
def usedPortsUnsorted (basePort machinesPerPort : Int) (blocklist : List Int)
    (buf : List SampleRecord) : List Int :=
  dedupFirst ((buf.filter fun m => decide (bucketFor basePort machinesPerPort m ∉ blocklist)).map
    (bucketFor basePort machinesPerPort))

/-- The dispatch order `sorted(buckets.items())` of line 176. -/
def usedPorts (basePort machinesPerPort : Int) (blocklist : List Int)
    (buf : List SampleRecord) : List Int :=
  sortInts (usedPortsUnsorted basePort machinesPerPort blocklist buf)

/-- One `POST http://<control-host>:<port>/ingest` issued by the dispatch loop,
lines 176-178: the destination port and the JSON payload
`{"Timestamp": current_scrape_time, "Metrics": items}`. -/
structure IngestRequest where
  port : Int
  timestamp : Int
  metrics : List SampleRecord
deriving DecidableEq

/-- The per-target scrape results of one cycle (lines 158-159) merged into
`metrics_buffer`, lines 161-163; a failed target contributed `[]`. -/
def mergeResults (results : List (List SampleRecord)) : List SampleRecord :=
  results.flatten

/-- The network calls one cycle issues, lines 156-187: `current_scrape_time`
is taken once (`ts`), all targets' results are merged, and — under the
`if metrics_buffer:` guard — each non-blocklisted non-empty bucket is posted
once, every payload carrying the same cycle timestamp. -/
def cycleRequests (basePort machinesPerPort : Int) (blocklist : List Int)
    (ts : Int) (results : List (List SampleRecord)) : List IngestRequest :=
  let buf := mergeResults results
  if buf.isEmpty then []
  else (usedPorts basePort machinesPerPort blocklist buf).map
    (fun p => ⟨p, ts, (routeAll basePort machinesPerPort blocklist buf).buckets p⟩)

/-- Outcome of one HTTP attempt against an endpoint: an exception (connection
failure or timeout, carrying its message) or a completed response with status
and body. -/
inductive AttemptOutcome where
  | exc : String → AttemptOutcome
  | resp : Nat → String → AttemptOutcome
deriving DecidableEq

/-- Trace of one `post_with_retry` call: its outcome (`.ok (status, text)` for
a returned response, `.error e` for the re-raised last exception), how many
POST attempts it made, and the backoff sleeps `0.2 * (attempt + 1)` seconds it
performed, in order. -/
structure RetryTrace where
  result : Except (Option String) (Nat × String)
  attempts : Nat
  delays : List ℚ

/-- The `for attempt in range(retries + 1)` loop of lines 111-121, recursing
on the number of loop iterations left. The endpoint's behaviour on the n-th
attempt (0-based) is `endpoint n`. A completed response — whatever its status
— is returned at once; an exception is recorded as `last_err`, a backoff of
`0.2 * (attempt + 1)` seconds is slept, and the loop continues; an exhausted
loop re-raises `last_err`. -/
def retryLoop (endpoint : Nat → AttemptOutcome) : Nat → Nat → Option String → RetryTrace
  | 0, _, lastErr => ⟨.error lastErr, 0, []⟩
  | left + 1, attempt, _lastErr =>
      match endpoint attempt with
      | .resp st body => ⟨.ok (st, body), 1, []⟩
      | .exc e =>
          let rest := retryLoop endpoint left (attempt + 1) (some e)
          ⟨rest.result, rest.attempts + 1, (((attempt + 1 : Nat) : ℚ) / 5) :: rest.delays⟩

/-- `post_with_retry(session, url, payload, retries)` of lines 111-121,
abstracted over the endpoint's per-attempt behaviour. -/
def post_with_retry (endpoint : Nat → AttemptOutcome) (retries : Nat) : RetryTrace :=
  retryLoop endpoint (retries + 1) 0 none

/-- By how much one dispatch changes `total_sent`, lines 179-187: a returned
response with status exactly 200 adds `len(items)`; any other status is logged
(`[SEND ERR]`) and adds nothing; a propagated exception is logged
(`[SEND EXC]`) and adds nothing. -/
def dispatchIncrement (itemsLen : Nat) (r : Except (Option String) (Nat × String)) : Nat :=
  match r with
  | .ok (st, _) => if st = 200 then itemsLen else 0
  | .error _ => 0

/-- The dispatch loop's effect on `total_sent` over a cycle's batches,
lines 176-187, with `retries=2` as at line 180: fold the per-batch increment
over the batch list, starting from the counter's prior value. `endpoint p n`
is shard `p`'s behaviour on the n-th attempt. -/
def runDispatch (endpoint : Int → Nat → AttemptOutcome)
    (batches : List (Int × List SampleRecord)) (t0 : Nat) : Nat :=
  batches.foldl
    (fun acc b => acc + dispatchIncrement b.2.length (post_with_retry (endpoint b.1) 2).result)
    t0

/-- A scrape of one target as `fetch_metrics` (lines 71-89) sees it: either an
exception before/while reading the response (connection failure, timeout), or
a response with its status and its body. Because the exposition-text parser is
third-party code outside this repository, the body is embedded as its parse:
one entry per metric family, `some samples` for a wellformed family and `none`
for a malformed one. -/
inductive ScrapeResponse where
  | exc : String → ScrapeResponse
  | resp : Nat → List (Option (List SampleRecord)) → ScrapeResponse

/-- Modelled from the spec: `text_fd_to_metric_families` of
`prometheus_client` (line 79) is an external dependency whose code is not in
this repository; per the spec, "Parsing is tolerant: malformed families are
skipped, not fatal to the cycle". So a parse keeps exactly the wellformed
families' sample lists, in order, and drops the malformed ones. -/
def parse_families (body : List (Option (List SampleRecord))) : List (List SampleRecord) :=
  body.filterMap id

/-- `fetch_metrics` of lines 71-89: an exception yields `[]` (logged); a
non-200 status yields `[]` (logged); a 200 response yields the samples of all
wellformed families in order (the per-sample record construction of
lines 81-86 — `dict(sample.labels)` and `float(sample.value)` — is the
identity under this embedding, label keys being unique). -/
def fetch_metrics : ScrapeResponse → List SampleRecord
  | .exc _ => []
  | .resp status body => if status ≠ 200 then [] else (parse_families body).flatten

/-- Python `s[:-n]` for `n ≤ len(s)`. -/
def pyDropRight (n : Nat) (l : PyStr) : PyStr := l.take (l.length - n)

def sufMs : PyStr := "ms".data
def sufS : PyStr := "s".data
def sufM : PyStr := "m".data
def sufH : PyStr := "h".data

/-- `parse_duration` of `custom_ingester_noDB_test3_dynamic.py` lines 100-109
(identical in `custom_ingester_noDB.py` lines 22-32): the suffix checks in
source order (`ms` before `s`), the prefix put through `int()`; the result in
seconds as an exact rational (`int(...) / 1000` is Python float division).
`none` models a raise — the explicit `ValueError("Unsupported duration
format")` when no suffix matches, or the `ValueError` out of `int()` on an
unparsable prefix. -/
def parse_duration (s : PyStr) : Option ℚ :=
  if sufMs.isSuffixOf s then (pyParseInt (pyDropRight 2 s)).map (fun n => (n : ℚ) / 1000)
  else if sufS.isSuffixOf s then (pyParseInt (pyDropRight 1 s)).map (fun n => (n : ℚ))
  else if sufM.isSuffixOf s then (pyParseInt (pyDropRight 1 s)).map (fun n => (n : ℚ) * 60)
  else if sufH.isSuffixOf s then (pyParseInt (pyDropRight 1 s)).map (fun n => (n : ℚ) * 3600)
  else none

/-- The scrape-interval resolution of `custom_ingester_noDB_test3_dynamic.py`
lines 145-151: a parse failure (`except Exception`) defaults to 1 second, a
parsed non-positive value is replaced by 1 second. -/
def interval_seconds_dynamic (s : PyStr) : ℚ :=
  match parse_duration s with
  | some v => if v ≤ 0 then 1 else v
  | none => 1

/-- The scrape-interval resolution of `custom_ingester_noDB.py` lines 80-87:
a `ValueError` defaults to 10 seconds, a parsed non-positive value is replaced
by 1 second. -/
def interval_seconds_noDB (s : PyStr) : ℚ :=
  match parse_duration s with
  | some v => if v ≤ 0 then 1 else v
  | none => 10

/-! ### Helper lemmas: characters and `int()` parsing -/

theorem not_ws_of_digit (c : Char) (h : c.isDigit = true) : isWs c = false := by
  cases hw : isWs c with
  | false => rfl
  | true =>
      exfalso
      have hw' : ((c = ' ' ∨ c = '\t') ∨ c = '\r') ∨ c = '\n' := by
        simpa [isWs, Char.isWhitespace, Bool.or_eq_true, decide_eq_true_eq] using hw
      rcases hw' with ((h1 | h1) | h1) | h1 <;> subst h1 <;> exact absurd h (by decide)

theorem digit_ne_dash (c : Char) (h : c.isDigit = true) : ¬ c = '-' := by
  intro hc; subst hc; exact absurd h (by decide)

theorem digit_ne_plus (c : Char) (h : c.isDigit = true) : ¬ c = '+' := by
  intro hc; subst hc; exact absurd h (by decide)

theorem digit_ne_m (c : Char) (h : c.isDigit = true) : ¬ ('m' = c) := by
  intro hc; rw [← hc] at h; exact absurd h (by decide)

theorem dropWhile_ws_of_digits (l : PyStr) (h : allDigits l = true) :
    l.dropWhile isWs = l := by
  cases l with
  | nil => rfl
  | cons c cs =>
      have hc : c.isDigit = true := List.all_eq_true.mp h c (List.mem_cons_self c cs)
      rw [List.dropWhile_cons, not_ws_of_digit c hc]
      simp

theorem allDigits_reverse (l : PyStr) (h : allDigits l = true) :
    allDigits l.reverse = true := by
  simpa [allDigits, List.all_eq_true, List.mem_reverse] using
    (List.all_eq_true.mp h : ∀ c ∈ l, c.isDigit = true)

theorem trimWs_of_digits (l : PyStr) (h : allDigits l = true) : trimWs l = l := by
  unfold trimWs
  rw [dropWhile_ws_of_digits l h, dropWhile_ws_of_digits l.reverse (allDigits_reverse l h),
    List.reverse_reverse]

theorem pyParseInt_digits (l : PyStr) (hne : l ≠ []) (h : allDigits l = true) :
    pyParseInt l = some ((digitsVal l : Int)) := by
  unfold pyParseInt
  rw [trimWs_of_digits l h]
  cases l with
  | nil => exact absurd rfl hne
  | cons c cs =>
      have hc : c.isDigit = true := List.all_eq_true.mp h c (List.mem_cons_self c cs)
      rw [pyParseIntTrimmed, if_neg (digit_ne_dash c hc), if_neg (digit_ne_plus c hc)]
      unfold parseDigits
      rw [if_neg (by simp), if_pos h]
      rfl

/-! ### Helper lemmas: `str.split` -/

theorem splitOnChar_ne_nil (sep : Char) (l : PyStr) : splitOnChar sep l ≠ [] := by
  cases l with
  | nil => simp [splitOnChar]
  | cons x xs =>
      cases h : splitOnChar sep xs with
      | nil => simp [splitOnChar, h]
      | cons g gs => by_cases hx : x = sep <;> simp [splitOnChar, h, hx]

theorem splitOnChar_not_mem (sep : Char) (l : PyStr) (h : sep ∉ l) :
    splitOnChar sep l = [l] := by
  induction l with
  | nil => rfl
  | cons x xs ih =>
      have hx : ¬ x = sep := fun he => h (he ▸ List.mem_cons_self x xs)
      have hxs : sep ∉ xs := fun hm => h (List.mem_cons_of_mem x hm)
      simp [splitOnChar, ih hxs, hx]

theorem splitOnChar_append (sep : Char) (a b : PyStr) (h : sep ∉ a) :
    splitOnChar sep (a ++ sep :: b) = a :: splitOnChar sep b := by
  induction a with
  | nil =>
      cases hb : splitOnChar sep b with
      | nil => exact absurd hb (splitOnChar_ne_nil sep b)
      | cons g gs => simp [splitOnChar, hb]
  | cons x a' ih =>
      have hx : ¬ x = sep := fun he => h (he ▸ List.mem_cons_self x a')
      have ha' : sep ∉ a' := fun hm => h (List.mem_cons_of_mem x hm)
      simp [splitOnChar, ih ha', hx]

/-! ### Helper lemmas: suffix tests and `parse_duration` -/

theorem sufMs_eq : sufMs = [ 'm', 's' ] := rfl

theorem sufS_eq : sufS = [ 's' ] := rfl

theorem sufM_eq : sufM = [ 'm' ] := rfl

theorem sufH_eq : sufH = [ 'h' ] := rfl

theorem isSuffixOf_single_append_ne (c d : Char) (l : PyStr) (h : ¬ (c = d)) :
    (List.isSuffixOf [ c ] (l ++ [ d ])) = false := by
  show (List.isPrefixOf (List.reverse [ c ]) (l ++ [ d ]).reverse) = false
  simp [List.isPrefixOf_cons₂, h]

theorem isSuffixOf_pair_append_ne (c1 c2 d : Char) (l : PyStr) (h : ¬ (c2 = d)) :
    (List.isSuffixOf [ c1, c2 ] (l ++ [ d ])) = false := by
  show (List.isPrefixOf (List.reverse [ c1, c2 ]) (l ++ [ d ]).reverse) = false
  simp [List.isPrefixOf_cons₂, h]

theorem ms_not_suffix_digits_s (ds : PyStr) (hne : ds ≠ []) (hd : allDigits ds = true) :
    (sufMs.isSuffixOf (ds ++ sufS)) = false := by
  rw [sufMs_eq, sufS_eq]
  show (List.isPrefixOf (List.reverse [ 'm', 's' ]) (ds ++ [ 's' ]).reverse) = false
  have hrev : ds.reverse ≠ [] := by simpa [List.reverse_eq_nil_iff] using hne
  obtain ⟨c, t, hct⟩ := List.exists_cons_of_ne_nil hrev
  have hcds : c ∈ ds := by
    have : c ∈ ds.reverse := hct ▸ List.mem_cons_self c t
    simpa [List.mem_reverse] using this
  have hcd : c.isDigit = true := List.all_eq_true.mp hd c hcds
  simp [hct, List.isPrefixOf_cons₂, digit_ne_m c hcd]

theorem pyDropRight_append (a b : PyStr) : pyDropRight b.length (a ++ b) = a := by
  unfold pyDropRight
  rw [List.length_append, Nat.add_sub_cancel, List.take_left]

theorem parse_duration_ms (ds : PyStr) (hne : ds ≠ []) (hd : allDigits ds = true) :
    parse_duration (ds ++ sufMs) = some ((digitsVal ds : ℚ) / 1000) := by
  unfold parse_duration
  rw [if_pos (by simp [List.isSuffixOf_iff_suffix, List.suffix_append])]
  have h2 : pyDropRight 2 (ds ++ sufMs) = ds := pyDropRight_append ds sufMs
  rw [h2, pyParseInt_digits ds hne hd]
  simp

theorem parse_duration_s (ds : PyStr) (hne : ds ≠ []) (hd : allDigits ds = true) :
    parse_duration (ds ++ sufS) = some ((digitsVal ds : ℚ)) := by
  unfold parse_duration
  rw [if_neg (by simp [ms_not_suffix_digits_s ds hne hd]),
    if_pos (by simp [List.isSuffixOf_iff_suffix, List.suffix_append])]
  have h1 : pyDropRight 1 (ds ++ sufS) = ds := pyDropRight_append ds sufS
  rw [h1, pyParseInt_digits ds hne hd]
  simp

theorem parse_duration_m (ds : PyStr) (hne : ds ≠ []) (hd : allDigits ds = true) :
    parse_duration (ds ++ sufM) = some ((digitsVal ds : ℚ) * 60) := by
  unfold parse_duration
  rw [if_neg (by rw [sufMs_eq, sufM_eq]; simp [isSuffixOf_pair_append_ne 'm' 's' 'm' ds (by decide)]),
    if_neg (by rw [sufS_eq, sufM_eq]; simp [isSuffixOf_single_append_ne 's' 'm' ds (by decide)]),
    if_pos (by simp [List.isSuffixOf_iff_suffix, List.suffix_append])]
  have h1 : pyDropRight 1 (ds ++ sufM) = ds := pyDropRight_append ds sufM
  rw [h1, pyParseInt_digits ds hne hd]
  simp

theorem parse_duration_h (ds : PyStr) (hne : ds ≠ []) (hd : allDigits ds = true) :
    parse_duration (ds ++ sufH) = some ((digitsVal ds : ℚ) * 3600) := by
  unfold parse_duration
  rw [if_neg (by rw [sufMs_eq, sufH_eq]; simp [isSuffixOf_pair_append_ne 'm' 's' 'h' ds (by decide)]),
    if_neg (by rw [sufS_eq, sufH_eq]; simp [isSuffixOf_single_append_ne 's' 'h' ds (by decide)]),
    if_neg (by rw [sufM_eq, sufH_eq]; simp [isSuffixOf_single_append_ne 'm' 'h' ds (by decide)]),
    if_pos (by simp [List.isSuffixOf_iff_suffix, List.suffix_append])]
  have h1 : pyDropRight 1 (ds ++ sufH) = ds := pyDropRight_append ds sufH
  rw [h1, pyParseInt_digits ds hne hd]
  simp

theorem parse_duration_none (s : PyStr)
    (h1 : (sufMs.isSuffixOf s) = false) (h2 : (sufS.isSuffixOf s) = false)
    (h3 : (sufM.isSuffixOf s) = false) (h4 : (sufH.isSuffixOf s) = false) :
    parse_duration s = none := by
  unfold parse_duration
  rw [if_neg (by simp [h1]), if_neg (by simp [h2]), if_neg (by simp [h3]), if_neg (by simp [h4])]

/-! ### Helper lemmas: bucketing and the cycle's requests -/

theorem routeFold_buckets (bp mpp : Int) (bl : List Int) :
    ∀ (buf : List SampleRecord) (st : RouteState) (p : Int),
      ((buf.foldl (routeStep bp mpp bl) st).buckets p)
        = st.buckets p
          ++ buf.filter (fun m => decide (bucketFor bp mpp m = p ∧ bucketFor bp mpp m ∉ bl)) := by
  intro buf
  induction buf with
  | nil => intro st p; simp
  | cons m rest ih =>
      intro st p
      rw [List.foldl_cons, ih]
      by_cases hbl : bucketFor bp mpp m ∈ bl
      · have hstep : (routeStep bp mpp bl st m).buckets p = st.buckets p := by
          simp [routeStep, hbl]
        rw [hstep, List.filter_cons]
        simp [hbl]
      · by_cases hp : bucketFor bp mpp m = p
        · have hpbl : p ∉ bl := hp ▸ hbl
          have hstep : (routeStep bp mpp bl st m).buckets p = st.buckets p ++ [m] := by
            simp [routeStep, hbl, hp, hpbl]
          rw [hstep, List.filter_cons]
          simp [hbl, hp, hpbl]
        · have hstep : (routeStep bp mpp bl st m).buckets p = st.buckets p := by
            simp [routeStep, hbl]
            intro he
            exact absurd he.symm hp
          rw [hstep, List.filter_cons]
          simp [hp]

theorem routeFold_skipped (bp mpp : Int) (bl : List Int) :
    ∀ (buf : List SampleRecord) (st : RouteState),
      ((buf.foldl (routeStep bp mpp bl) st).skipped)
        = st.skipped ++ buf.filter (fun m => decide (bucketFor bp mpp m ∈ bl)) := by
  intro buf
  induction buf with
  | nil => intro st; simp
  | cons m rest ih =>
      intro st
      rw [List.foldl_cons, ih]
      by_cases hbl : bucketFor bp mpp m ∈ bl
      · have hstep : (routeStep bp mpp bl st m).skipped = st.skipped ++ [m] := by
          simp [routeStep, hbl]
        rw [hstep, List.filter_cons]
        simp [hbl]
      · have hstep : (routeStep bp mpp bl st m).skipped = st.skipped := by
          simp [routeStep, hbl]
        rw [hstep, List.filter_cons]
        simp [hbl]

theorem routeAll_buckets (bp mpp : Int) (bl : List Int) (buf : List SampleRecord) (p : Int) :
    (routeAll bp mpp bl buf).buckets p
      = buf.filter (fun m => decide (bucketFor bp mpp m = p ∧ bucketFor bp mpp m ∉ bl)) := by
  have h := routeFold_buckets bp mpp bl buf ⟨fun _ => [], []⟩ p
  simpa [routeAll] using h

theorem routeAll_skipped (bp mpp : Int) (bl : List Int) (buf : List SampleRecord) :
    (routeAll bp mpp bl buf).skipped
      = buf.filter (fun m => decide (bucketFor bp mpp m ∈ bl)) := by
  have h := routeFold_skipped bp mpp bl buf ⟨fun _ => [], []⟩
  simpa [routeAll] using h

theorem mem_buckets_iff (bp mpp : Int) (bl : List Int) (buf : List SampleRecord)
    (p : Int) (m : SampleRecord) :
    m ∈ (routeAll bp mpp bl buf).buckets p
      ↔ m ∈ buf ∧ bucketFor bp mpp m = p ∧ bucketFor bp mpp m ∉ bl := by
  rw [routeAll_buckets]
  simp [List.mem_filter, and_assoc]

theorem mem_dedupFirst (p : Int) : ∀ (l : List Int), p ∈ dedupFirst l ↔ p ∈ l := by
  intro l
  induction l with
  | nil => simp [dedupFirst]
  | cons x xs ih =>
      simp only [dedupFirst, List.mem_cons, List.mem_filter, decide_eq_true_eq]
      constructor
      · rintro (rfl | ⟨hmem, _⟩)
        · exact Or.inl rfl
        · exact Or.inr (ih.mp hmem)
      · rintro (rfl | hmem)
        · exact Or.inl rfl
        · by_cases hpx : p = x
          · exact Or.inl hpx
          · exact Or.inr ⟨ih.mpr hmem, hpx⟩

theorem insortInt_perm (x : Int) : ∀ (l : List Int), List.Perm (insortInt x l) (x :: l) := by
  intro l
  induction l with
  | nil => exact List.Perm.refl [x]
  | cons y ys ih =>
      by_cases h : x ≤ y
      · simp [insortInt, h]
      · simp only [insortInt, if_neg h]
        exact (ih.cons y).trans (List.Perm.swap x y ys)

theorem sortInts_perm : ∀ (l : List Int), List.Perm (sortInts l) l := by
  intro l
  induction l with
  | nil => exact List.Perm.refl []
  | cons x xs ih => exact (insortInt_perm x (sortInts xs)).trans (ih.cons x)

theorem mem_usedPorts_iff (bp mpp : Int) (bl : List Int) (buf : List SampleRecord) (p : Int) :
    p ∈ usedPorts bp mpp bl buf
      ↔ ∃ m ∈ buf, bucketFor bp mpp m = p ∧ p ∉ bl := by
  unfold usedPorts usedPortsUnsorted
  rw [(sortInts_perm _).mem_iff, mem_dedupFirst]
  simp only [List.mem_map, List.mem_filter, decide_eq_true_eq]
  constructor
  · rintro ⟨m, ⟨hm, hnb⟩, rfl⟩
    exact ⟨m, hm, rfl, hnb⟩
  · rintro ⟨m, hm, rfl, hnb⟩
    exact ⟨m, ⟨hm, hnb⟩, rfl⟩

theorem mem_cycleRequests_iff (bp mpp : Int) (bl : List Int) (ts : Int)
    (results : List (List SampleRecord)) (r : IngestRequest) :
    r ∈ cycleRequests bp mpp bl ts results
      ↔ ∃ p ∈ usedPorts bp mpp bl (mergeResults results),
          r = ⟨p, ts, (routeAll bp mpp bl (mergeResults results)).buckets p⟩ := by
  unfold cycleRequests
  by_cases h : (mergeResults results).isEmpty
  · have hnil : mergeResults results = [] := by simpa [List.isEmpty_iff] using h
    constructor
    · intro hr
      simp [h] at hr
    · rintro ⟨p, hp, rfl⟩
      rw [mem_usedPorts_iff] at hp
      obtain ⟨m, hm, _, _⟩ := hp
      rw [hnil] at hm
      exact absurd hm (List.not_mem_nil m)
  · simp only [if_neg h, List.mem_map]
    constructor
    · rintro ⟨p, hp, rfl⟩
      exact ⟨p, hp, rfl⟩
    · rintro ⟨p, hp, rfl⟩
      exact ⟨p, hp, rfl⟩

/-! ### Helper lemmas: retry loop and counter -/

theorem retryLoop_attempts_le (e : Nat → AttemptOutcome) :
    ∀ (left attempt : Nat) (lastErr : Option String),
      (retryLoop e left attempt lastErr).attempts ≤ left := by
  intro left
  induction left with
  | zero => intro attempt lastErr; simp [retryLoop]
  | succ n ih =>
      intro attempt lastErr
      cases h : e attempt with
      | resp st body => simp [retryLoop, h]
      | exc msg =>
          have := ih (attempt + 1) (some msg)
          simp only [retryLoop, h]
          omega

theorem retryLoop_exc_attempts (e : Nat → AttemptOutcome) (f : Nat → String)
    (hf : ∀ n, e n = .exc (f n)) :
    ∀ (left attempt : Nat) (lastErr : Option String),
      (retryLoop e left attempt lastErr).attempts = left := by
  intro left
  induction left with
  | zero => intro attempt lastErr; simp [retryLoop]
  | succ n ih =>
      intro attempt lastErr
      simp only [retryLoop, hf attempt]
      rw [ih (attempt + 1) (some (f attempt))]

theorem retryLoop_exc_delays (e : Nat → AttemptOutcome) (f : Nat → String)
    (hf : ∀ n, e n = .exc (f n)) :
    ∀ (left attempt : Nat) (lastErr : Option String),
      (retryLoop e left attempt lastErr).delays
        = (List.range left).map (fun k => (((attempt + k + 1 : Nat)) : ℚ) / 5) := by
  intro left
  induction left with
  | zero => intro attempt lastErr; simp [retryLoop]
  | succ n ih =>
      intro attempt lastErr
      simp only [retryLoop, hf attempt]
      rw [ih (attempt + 1) (some (f attempt)), List.range_succ_eq_map, List.map_cons,
        List.map_map]
      refine congrArg₂ _ (by norm_num) ?_
      refine List.map_congr_left ?_
      intro k _
      have harith : attempt + 1 + k + 1 = attempt + Nat.succ k + 1 := by omega
      simp [Function.comp, harith]

theorem retryLoop_exc_result (e : Nat → AttemptOutcome) (f : Nat → String)
    (hf : ∀ n, e n = .exc (f n)) :
    ∀ (left attempt : Nat) (lastErr : Option String),
      (retryLoop e (left + 1) attempt lastErr).result = .error (some (f (attempt + left))) := by
  intro left
  induction left with
  | zero => intro attempt lastErr; simp [retryLoop, hf attempt]
  | succ n ih =>
      intro attempt lastErr
      have hstep : (retryLoop e (n + 1 + 1) attempt lastErr).result
          = (retryLoop e (n + 1) (attempt + 1) (some (f attempt))).result := by
        simp only [retryLoop, hf attempt]
      rw [hstep, ih (attempt + 1) (some (f attempt))]
      have harith : attempt + 1 + n = attempt + (n + 1) := by omega
      rw [harith]

theorem retryLoop_resp_at (e : Nat → AttemptOutcome) (g : Nat → String)
    (st : Nat) (body : String) :
    ∀ (j left attempt : Nat) (lastErr : Option String), j < left →
      (∀ i, i < j → e (attempt + i) = .exc (g (attempt + i))) →
      e (attempt + j) = .resp st body →
      retryLoop e left attempt lastErr
        = ⟨.ok (st, body), j + 1,
            (List.range j).map (fun k => (((attempt + k + 1 : Nat)) : ℚ) / 5)⟩ := by
  intro j
  induction j with
  | zero =>
      intro left attempt lastErr hlt _hexc hresp
      obtain ⟨left', rfl⟩ : ∃ left', left = left' + 1 := ⟨left - 1, by omega⟩
      have hresp0 : e attempt = .resp st body := by simpa using hresp
      simp [retryLoop, hresp0]
  | succ n ih =>
      intro left attempt lastErr hlt hexc hresp
      obtain ⟨left', rfl⟩ : ∃ left', left = left' + 1 := ⟨left - 1, by omega⟩
      have h0 : e attempt = .exc (g attempt) := by
        have := hexc 0 (Nat.succ_pos n)
        simpa using this
      have hrest := ih left' (attempt + 1) (some (g attempt)) (by omega)
        (fun i hi => by
          have h := hexc (i + 1) (by omega)
          have harith : attempt + (i + 1) = attempt + 1 + i := by omega
          rwa [harith] at h)
        (by
          have harith : attempt + (n + 1) = attempt + 1 + n := by omega
          rwa [harith] at hresp)
      simp only [retryLoop, h0, hrest]
      refine congrArg (RetryTrace.mk _ _) ?_
      rw [List.range_succ_eq_map, List.map_cons, List.map_map]
      refine congrArg₂ _ (by norm_num) ?_
      refine List.map_congr_left ?_
      intro k _
      have harith : attempt + 1 + k + 1 = attempt + Nat.succ k + 1 := by omega
      simp [Function.comp, harith]

theorem runDispatch_cons (e : Int → Nat → AttemptOutcome) (b : Int × List SampleRecord)
    (bs : List (Int × List SampleRecord)) (t0 : Nat) :
    runDispatch e (b :: bs) t0
      = runDispatch e bs
          (t0 + dispatchIncrement b.2.length (post_with_retry (e b.1) 2).result) := rfl

theorem runDispatch_mono (e : Int → Nat → AttemptOutcome) :
    ∀ (batches : List (Int × List SampleRecord)) (t0 : Nat), t0 ≤ runDispatch e batches t0 := by
  intro batches
  induction batches with
  | nil => intro t0; simp [runDispatch]
  | cons b bs ih =>
      intro t0
      rw [runDispatch_cons]
      exact le_trans (Nat.le_add_right t0 _) (ih _)

/-! ### Concrete strings and records used by witnesses and counterexamples -/

def pfxMachine : PyStr := "machine".data
def tok523 : PyStr := "523".data
def tok5 : PyStr := "5".data
def keyBadDur : PyStr := "5x".data
def keyMachine300 : PyStr := "machine_300".data
def nameCpu : PyStr := "cpu".data
def sampleA : SampleRecord := ⟨nameCpu, [(machineidKey, keyMachine0)], 1⟩
def sampleB : SampleRecord := ⟨nameCpu, [(machineidKey, keyMachine300)], 2⟩
def sampleNoId : SampleRecord := ⟨nameCpu, [], 3⟩
def bl0 : List Int := [7000]
def bl7101 : List Int := [7101]
def msgTimeout : String := "timeout"
def msgBoom : String := "boom"
def bodyOk : String := "ok"
def bodyOops : String := "oops"

/-- An endpoint that raises on attempt 0 and completes every later attempt
with a non-2xx response. -/
def excThenResp : Nat → AttemptOutcome :=
  fun n => if n = 0 then .exc msgBoom else .resp 502 bodyOops

/-- Responses of the partial-failure scenario: three targets, the middle one
timing out, the other two each serving one wellformed family. -/
def scnResults : List (List SampleRecord) :=
  [fetch_metrics (.resp 200 [some [sampleA]]),
   fetch_metrics (.exc msgTimeout),
   fetch_metrics (.resp 200 [some [sampleB]])]

def reqA : IngestRequest := ⟨7100, 42, [sampleA]⟩

/-! ### Claim C8 helper -/

/-- Whenever the router's own index parse fails — the key has no second
underscore-separated token, or that token is not an integer — the router
returns the base port. -/
theorem machine_to_port_default (bp mpp : Int) (key : PyStr)
    (h : ((splitOnChar '_' key)[1]?.bind pyParseInt) = none) :
    machine_to_port bp mpp key = bp := by
  unfold machine_to_port
  cases ht : (splitOnChar '_' key)[1]? with
  | none => simp [ht, Int.zero_fdiv]
  | some t =>
      have hpt : pyParseInt t = none := by simpa [ht] using h
      simp [ht, hpt, Int.zero_fdiv]

/-! ### The claims -/

/-- C1 (corrected). The claim asserted that `machine_to_port` equals the
reference formula `base_port + (parsed trailing integer div series_per_shard)`
for every key; the code instead parses the token immediately after the first
underscore, which coincides with the trailing integer exactly on keys of the
form `<prefix>_<suffix>` whose two parts contain no further underscore. This
theorem proves the amended claim: the router is the pure function
`machine_to_port` of the configuration and the key alone, it agrees with the
spec's trailing-integer formula `route_spec` on every key with exactly one
underscore, and the four routing scenarios hold with `base_port = 7100`,
`series_per_shard = 200`. -/
theorem C1_router_corrected :
    (∀ (bp mpp : Int) (a b : PyStr), '_' ∉ a → '_' ∉ b →
        machine_to_port bp mpp (a ++ '_' :: b) = route_spec bp mpp (a ++ '_' :: b)) ∧
    machine_to_port 7100 200 keyMachine0 = 7100 ∧
    machine_to_port 7100 200 keyMachine199 = 7100 ∧
    machine_to_port 7100 200 keyMachine200 = 7101 ∧
    machine_to_port 7100 200 keyMachine523 = 7102 := by
  refine ⟨?_, by decide, by decide, by decide, by decide⟩
  intro bp mpp a b ha hb
  unfold machine_to_port route_spec
  rw [splitOnChar_append '_' a b ha, splitOnChar_not_mem '_' b hb]
  rfl

/-- Witness for C1: the format equality instantiated at the key
`"machine_523"` (prefix `"machine"`, token `"523"`). -/
theorem C1_witness :
    machine_to_port 7100 200 (pfxMachine ++ '_' :: tok523)
      = route_spec 7100 200 (pfxMachine ++ '_' :: tok523) :=
  C1_router_corrected.1 7100 200 pfxMachine tok523 (by decide) (by decide)

/-- Counterexample to C1 as stated: on the key `"machine_200_400"` the code
routes by the token after the first underscore (200 → port 7101) while the
spec's trailing-integer formula gives 400 → port 7102. -/
theorem C1_counterexample :
    machine_to_port 7100 200 keyTwoIdx = 7101 ∧ route_spec 7100 200 keyTwoIdx = 7102 ∧
    ¬ machine_to_port 7100 200 keyTwoIdx = route_spec 7100 200 keyTwoIdx := by
  decide

/-- C8 (corrected). The claim asserted that every key with no parsable
trailing integer resolves to `base_port + 0`; in the code the parse that can
fail is of the token after the *first* underscore, not the trailing one. This
theorem proves the amended claim: whenever the router's own parse fails (no
second token, or a non-integer second token, e.g. `"unexpected_format"`), the
router returns `base_port + 0` without raising — the exception is caught and
defaulted inside `machine_to_port`, which is a total function. -/
theorem C8_default_corrected :
    (∀ (bp mpp : Int) (key : PyStr),
        ((splitOnChar '_' key)[1]?.bind pyParseInt) = none →
        machine_to_port bp mpp key = bp) ∧
    ∀ (bp mpp : Int), machine_to_port bp mpp keyUnexpected = bp :=
  ⟨machine_to_port_default, fun bp mpp => machine_to_port_default bp mpp keyUnexpected (by decide)⟩

/-- Witness for C8: the malformed key `"unexpected_format"` resolves to the
base port 7100. -/
theorem C8_witness : machine_to_port 7100 200 keyUnexpected = 7100 :=
  C8_default_corrected.1 7100 200 keyUnexpected (by decide)

/-- Counterexample to C8 as stated: `"a_500_x"` has no parsable trailing
integer (its last token is `"x"`), yet the router resolves it to 7102, not
`base_port + 0 = 7100`, because the token after the first underscore is
`"500"`. -/
theorem C8_counterexample :
    ((splitOnChar '_' keyNoTrail).getLast?.bind pyParseInt) = none ∧
    machine_to_port 7100 200 keyNoTrail = 7102 ∧
    ¬ machine_to_port 7100 200 keyNoTrail = 7100 := by
  decide

/-- C9 (confirmed). `parse_duration` maps an integer prefix `N` with suffix
`"ms"` to `N/1000` seconds, `"s"` to `N`, `"m"` to `N*60`, `"h"` to `N*3600`,
and raises (`none`) on a string with none of those suffixes; and a malformed
or non-positive scrape interval never stops the loop but is replaced by a
positive default — 1 second in the dynamic ingester (and 1 for non-positive in
both), 10 seconds for a malformed string in the noDB ingester. -/
theorem C9_parse_duration_confirmed :
    (∀ (ds : PyStr), ds ≠ [] → allDigits ds = true →
        parse_duration (ds ++ sufMs) = some ((digitsVal ds : ℚ) / 1000) ∧
        parse_duration (ds ++ sufS) = some ((digitsVal ds : ℚ)) ∧
        parse_duration (ds ++ sufM) = some ((digitsVal ds : ℚ) * 60) ∧
        parse_duration (ds ++ sufH) = some ((digitsVal ds : ℚ) * 3600)) ∧
    (∀ (s : PyStr), (sufMs.isSuffixOf s) = false → (sufS.isSuffixOf s) = false →
        (sufM.isSuffixOf s) = false → (sufH.isSuffixOf s) = false →
        parse_duration s = none) ∧
    (∀ (s : PyStr), 0 < interval_seconds_dynamic s ∧ 0 < interval_seconds_noDB s) ∧
    (∀ (s : PyStr), parse_duration s = none →
        interval_seconds_dynamic s = 1 ∧ interval_seconds_noDB s = 10) ∧
    (∀ (s : PyStr) (v : ℚ), parse_duration s = some v → v ≤ 0 →
        interval_seconds_dynamic s = 1 ∧ interval_seconds_noDB s = 1) := by
  refine ⟨?_, parse_duration_none, ?_, ?_, ?_⟩
  · intro ds hne hd
    exact ⟨parse_duration_ms ds hne hd, parse_duration_s ds hne hd,
      parse_duration_m ds hne hd, parse_duration_h ds hne hd⟩
  · intro s
    unfold interval_seconds_dynamic interval_seconds_noDB
    cases h : parse_duration s with
    | none => norm_num
    | some v =>
        by_cases hv : v ≤ 0
        · simp [hv]
        · simp only [if_neg hv]
          exact ⟨lt_of_not_le hv, lt_of_not_le hv⟩
  · intro s h
    simp [interval_seconds_dynamic, interval_seconds_noDB, h]
  · intro s v h hv
    simp [interval_seconds_dynamic, interval_seconds_noDB, h, hv]

/-- Witness for C9: `"5ms"` parses to 5/1000 seconds, and the malformed
interval `"5x"` makes the noDB ingester fall back to 10 seconds. -/
theorem C9_witness :
    parse_duration (tok5 ++ sufMs) = some ((digitsVal tok5 : ℚ) / 1000) ∧
    interval_seconds_noDB keyBadDur = 10 :=
  ⟨(C9_parse_duration_confirmed.1 tok5 (by decide) (by decide)).1,
   (C9_parse_duration_confirmed.2.2.2.1 keyBadDur (by decide)).2⟩

/-- C2 (confirmed). The per-cycle bucketing partitions the merged sample set
exactly: every sample in a bucket came from the input and belongs to exactly
that (non-blocklisted) bucket with its full multiplicity; no sample is in two
buckets; a sample whose port is blocklisted is in no bucket and is recorded in
the skip log; the skip log holds only such samples; and over the actually
dispatched requests of a cycle, a sample occurs in some request's payload iff
it is a non-blocklisted input sample, with no sample shared by two distinct
requests. -/
theorem C2_partition_confirmed :
    ∀ (bp mpp : Int) (bl : List Int) (buf : List SampleRecord),
      (∀ (p : Int) (m : SampleRecord), m ∈ (routeAll bp mpp bl buf).buckets p →
          m ∈ buf ∧ bucketFor bp mpp m = p ∧ p ∉ bl) ∧
      (∀ m ∈ buf, bucketFor bp mpp m ∉ bl →
          ((routeAll bp mpp bl buf).buckets (bucketFor bp mpp m)).count m = buf.count m) ∧
      (∀ (p q : Int) (m : SampleRecord), ¬ p = q →
          m ∈ (routeAll bp mpp bl buf).buckets p → m ∉ (routeAll bp mpp bl buf).buckets q) ∧
      (∀ m ∈ buf, bucketFor bp mpp m ∈ bl →
          (∀ p, m ∉ (routeAll bp mpp bl buf).buckets p) ∧
          m ∈ (routeAll bp mpp bl buf).skipped) ∧
      (∀ m ∈ (routeAll bp mpp bl buf).skipped, m ∈ buf ∧ bucketFor bp mpp m ∈ bl) ∧
      (∀ (ts : Int) (results : List (List SampleRecord)), buf = mergeResults results →
          ∀ m : SampleRecord,
            (∃ r ∈ cycleRequests bp mpp bl ts results, m ∈ r.metrics) ↔
              m ∈ buf ∧ bucketFor bp mpp m ∉ bl) ∧
      (∀ (ts : Int) (results : List (List SampleRecord)) (r r' : IngestRequest),
          r ∈ cycleRequests bp mpp bl ts results → r' ∈ cycleRequests bp mpp bl ts results →
          ¬ r = r' → ∀ m ∈ r.metrics, m ∉ r'.metrics) := by
  intro bp mpp bl buf
  refine ⟨?_, ?_, ?_, ?_, ?_, ?_, ?_⟩
  · intro p m hm
    rw [mem_buckets_iff] at hm
    exact ⟨hm.1, hm.2.1, hm.2.1 ▸ hm.2.2⟩
  · intro m hm hnb
    rw [routeAll_buckets]
    exact List.count_filter (by simp [hnb])
  · intro p q m hpq hp hq
    rw [mem_buckets_iff] at hp hq
    exact hpq (hp.2.1.symm.trans hq.2.1)
  · intro m hm hbl
    constructor
    · intro p hp
      rw [mem_buckets_iff] at hp
      exact hp.2.2 hbl
    · rw [routeAll_skipped]
      exact List.mem_filter.mpr ⟨hm, by simp [hbl]⟩
  · intro m hm
    rw [routeAll_skipped] at hm
    have := List.mem_filter.mp hm
    exact ⟨this.1, by simpa using this.2⟩
  · intro ts results hbuf m
    subst hbuf
    constructor
    · rintro ⟨r, hr, hmr⟩
      rw [mem_cycleRequests_iff] at hr
      obtain ⟨p, _, rfl⟩ := hr
      rw [mem_buckets_iff] at hmr
      exact ⟨hmr.1, hmr.2.2⟩
    · rintro ⟨hm, hnb⟩
      refine ⟨⟨bucketFor bp mpp m, ts,
        (routeAll bp mpp bl (mergeResults results)).buckets (bucketFor bp mpp m)⟩, ?_, ?_⟩
      · rw [mem_cycleRequests_iff]
        exact ⟨bucketFor bp mpp m, (mem_usedPorts_iff _ _ _ _ _).mpr ⟨m, hm, rfl, hnb⟩, rfl⟩
      · exact (mem_buckets_iff _ _ _ _ _ _).mpr ⟨hm, rfl, hnb⟩
  · intro ts results r r' hr hr' hne m hm hm'
    rw [mem_cycleRequests_iff] at hr hr'
    obtain ⟨p, _, rfl⟩ := hr
    obtain ⟨q, _, rfl⟩ := hr'
    rw [mem_buckets_iff] at hm hm'
    have hpq : p = q := hm.2.1.symm.trans hm'.2.1
    subst hpq
    exact hne rfl

/-- Witness for C2: with the default configuration and blocklist, the single
sample of a one-sample cycle lands in bucket 7100 with its full count. -/
theorem C2_witness :
    ((routeAll 7100 200 bl0 [sampleA]).buckets (bucketFor 7100 200 sampleA)).count sampleA
      = [sampleA].count sampleA :=
  (C2_partition_confirmed 7100 200 bl0 [sampleA]).2.1 sampleA (by decide) (by decide)

/-- C6 (confirmed). A blocklisted port's bucket stays empty and no request of
any cycle is addressed to it: the dispatcher never issues a network call to a
blocklisted shard. -/
theorem C6_blocklist_confirmed :
    ∀ (bp mpp : Int) (bl : List Int) (ts : Int) (results : List (List SampleRecord)) (p : Int),
      p ∈ bl →
      (routeAll bp mpp bl (mergeResults results)).buckets p = [] ∧
      ∀ r ∈ cycleRequests bp mpp bl ts results, ¬ r.port = p := by
  intro bp mpp bl ts results p hp
  constructor
  · rw [routeAll_buckets, List.filter_eq_nil_iff]
    intro m hm
    simp only [decide_eq_true_eq, not_and]
    intro h1 h2
    exact h2 (h1 ▸ hp)
  · intro r hr
    rw [mem_cycleRequests_iff] at hr
    obtain ⟨q, hq, rfl⟩ := hr
    rw [mem_usedPorts_iff] at hq
    obtain ⟨m, _, _, hqb⟩ := hq
    intro he
    have hqp : q = p := he
    exact hqb (by rw [hqp]; exact hp)

/-- Witness for C6: blocklisting 7101 leaves bucket 7101 empty in a cycle
whose input contains a sample (machine_300) that would route there. -/
theorem C6_witness :
    (routeAll 7100 200 bl7101 (mergeResults [[sampleA], [sampleB]])).buckets 7101 = [] :=
  (C6_blocklist_confirmed 7100 200 bl7101 42 [[sampleA], [sampleB]] 7101 (by decide)).1

/-- C7 (confirmed). Every request a cycle posts carries the cycle's single
timestamp, taken once before the scrapes are gathered, whatever the per-target
results (including failed targets contributing nothing). -/
theorem C7_timestamp_confirmed :
    ∀ (bp mpp : Int) (bl : List Int) (ts : Int) (results : List (List SampleRecord))
      (r : IngestRequest), r ∈ cycleRequests bp mpp bl ts results → r.timestamp = ts := by
  intro bp mpp bl ts results r hr
  rw [mem_cycleRequests_iff] at hr
  obtain ⟨p, _, rfl⟩ := hr
  rfl

/-- Witness for C7: in the three-target scenario with one timeout, the batch
actually posted to port 7100 carries the cycle timestamp 42. -/
theorem C7_witness : reqA.timestamp = 42 :=
  C7_timestamp_confirmed 7100 200 bl0 42 scnResults reqA (by decide)

/-- C3 (corrected). The claim asserted that connection failures, timeouts
*and non-2xx responses* are all retried; in the code only exceptions are
retried — `post_with_retry` returns any completed response, whatever its
status, on the attempt that produced it, and the caller logs and drops the
batch on a non-200 status without further attempts. This theorem proves the
amended claim: the attempt count is always bounded by `1 + retry_count`; an
endpoint that raises on every attempt gets exactly `1 + retry_count` attempts
with linearly increasing backoff sleeps `0.2·1, 0.2·2, …` seconds before the
last exception is re-raised (the caller then logs and drops the batch); and
whenever the first `j ≤ retry_count` attempts raise and attempt `j` completes
with a response — whatever its status — that response is returned at once
after exactly `j + 1` attempts, with only the `j` backoff sleeps already
performed and no retry of the response. -/
theorem C3_retry_corrected :
    (∀ (e : Nat → AttemptOutcome) (retries : Nat),
        (post_with_retry e retries).attempts ≤ retries + 1) ∧
    (∀ (e : Nat → AttemptOutcome) (f : Nat → String), (∀ n, e n = .exc (f n)) →
        ∀ retries : Nat,
          (post_with_retry e retries).attempts = retries + 1 ∧
          (post_with_retry e retries).result = .error (some (f retries)) ∧
          (post_with_retry e retries).delays
            = (List.range (retries + 1)).map (fun k => (((k + 1 : Nat)) : ℚ) / 5)) ∧
    (∀ (e : Nat → AttemptOutcome) (g : Nat → String) (st : Nat) (body : String)
        (retries j : Nat), j ≤ retries →
        (∀ i, i < j → e i = .exc (g i)) →
        e j = .resp st body →
        post_with_retry e retries
          = ⟨.ok (st, body), j + 1,
              (List.range j).map (fun k => (((k + 1 : Nat)) : ℚ) / 5)⟩) := by
  refine ⟨?_, ?_, ?_⟩
  · intro e retries
    exact retryLoop_attempts_le e (retries + 1) 0 none
  · intro e f hf retries
    refine ⟨retryLoop_exc_attempts e f hf (retries + 1) 0 none, ?_, ?_⟩
    · have h := retryLoop_exc_result e f hf retries 0 none
      simpa using h
    · have h := retryLoop_exc_delays e f hf (retries + 1) 0 none
      simpa using h
  · intro e g st body retries j hj hexc hresp
    have h := retryLoop_resp_at e g st body j (retries + 1) 0 none (by omega)
      (fun i hi => by simpa using hexc i hi) (by simpa using hresp)
    simpa [post_with_retry] using h

/-- Witness for C3: against an endpoint that always raises, the default
`retries=2` call makes exactly 3 attempts and re-raises the last error; and
against an endpoint that raises once and then answers 502, the 502 response is
returned after exactly 2 attempts, with the single backoff already slept and
no retry of the response. -/
theorem C3_witness :
    ((post_with_retry (fun _ => AttemptOutcome.exc msgBoom) 2).attempts = 3 ∧
      (post_with_retry (fun _ => AttemptOutcome.exc msgBoom) 2).result
        = .error (some msgBoom)) ∧
    post_with_retry excThenResp 2
      = ⟨.ok (502, bodyOops), 1 + 1,
          (List.range 1).map (fun k => (((k + 1 : Nat)) : ℚ) / 5)⟩ := by
  have h := C3_retry_corrected.2.1 (fun _ => AttemptOutcome.exc msgBoom)
    (fun _ => msgBoom) (fun _ => rfl) 2
  have h2 := C3_retry_corrected.2.2 excThenResp (fun _ => msgBoom) 502 bodyOops 2 1
    (by decide)
    (fun i hi => by
      have hi0 : i = 0 := by omega
      subst hi0
      rfl)
    rfl
  exact ⟨⟨h.1, h.2.1⟩, h2⟩

/-- Counterexample to C3 as stated: an endpoint that is permanently failing by
always answering HTTP 500 gets exactly one attempt, not `1 + retry_count = 3`
— the non-2xx response is returned, not retried. -/
theorem C3_counterexample :
    (post_with_retry (fun _ => AttemptOutcome.resp 500 bodyOops) 2).attempts = 1 ∧
    (post_with_retry (fun _ => AttemptOutcome.resp 500 bodyOops) 2).result
      = .ok (500, bodyOops) ∧
    ¬ (post_with_retry (fun _ => AttemptOutcome.resp 500 bodyOops) 2).attempts = 2 + 1 := by
  exact ⟨rfl, rfl, by decide⟩

/-- C4 (corrected). The claim said the counter increases by the batch size on
any 2xx delivery; the code tests `status == 200` exactly, so e.g. a 204
delivery adds nothing. This theorem proves the amended claim: `total_sent` is
non-decreasing over a dispatch run; each batch adds its own increment; a
status-200 response adds exactly the batch's sample count; any other status,
and any delivery whose retries end in an exception, adds zero. -/
theorem C4_counter_corrected :
    (∀ (e : Int → Nat → AttemptOutcome) (batches : List (Int × List SampleRecord)) (t0 : Nat),
        t0 ≤ runDispatch e batches t0) ∧
    (∀ (e : Int → Nat → AttemptOutcome) (batches : List (Int × List SampleRecord))
        (b : Int × List SampleRecord) (t0 : Nat),
        runDispatch e (batches ++ [b]) t0
          = runDispatch e batches t0
            + dispatchIncrement b.2.length (post_with_retry (e b.1) 2).result) ∧
    (∀ (itemsLen : Nat) (body : String),
        dispatchIncrement itemsLen (.ok (200, body)) = itemsLen) ∧
    (∀ (itemsLen st : Nat) (body : String), ¬ st = 200 →
        dispatchIncrement itemsLen (.ok (st, body)) = 0) ∧
    (∀ (itemsLen : Nat) (err : Option String), dispatchIncrement itemsLen (.error err) = 0) := by
  refine ⟨runDispatch_mono, ?_, ?_, ?_, ?_⟩
  · intro e batches b t0
    simp [runDispatch, List.foldl_append]
  · intro itemsLen body
    simp [dispatchIncrement]
  · intro itemsLen st body h
    simp [dispatchIncrement, h]
  · intro itemsLen err
    simp [dispatchIncrement]

/-- Witness for C4: a 204 response leaves the increment at zero. -/
theorem C4_witness : dispatchIncrement 5 (.ok (204, bodyOk)) = 0 :=
  C4_counter_corrected.2.2.2.1 5 204 bodyOk (by decide)

/-- Counterexample to C4 as stated: 204 is a 2xx status, yet a batch of one
sample delivered with status 204 increments the counter by 0, not 1. -/
theorem C4_counterexample :
    (204 : Nat) / 100 = 2 ∧ dispatchIncrement 1 (Except.ok (204, bodyOk)) = 0 ∧
    ¬ (0 : Nat) = 1 := by
  exact ⟨rfl, rfl, by decide⟩

/-- C5 (confirmed). A scrape that raises (connection error, timeout) or that
completes with a non-200 status contributes the empty sample sequence — the
error is logged and the cycle proceeds without that target — and parsing is
tolerant: removing-or-keeping a malformed family in a 200 response's body
never changes the samples and never aborts the target or the cycle. -/
theorem C5_fetch_errors_confirmed :
    (∀ (e : String), fetch_metrics (.exc e) = []) ∧
    (∀ (st : Nat) (body : List (Option (List SampleRecord))), ¬ st = 200 →
        fetch_metrics (.resp st body) = []) ∧
    (∀ (pre post : List (Option (List SampleRecord))),
        fetch_metrics (.resp 200 (pre ++ none :: post))
          = fetch_metrics (.resp 200 (pre ++ post))) := by
  refine ⟨fun e => rfl, ?_, ?_⟩
  · intro st body h
    simp [fetch_metrics, h]
  · intro pre post
    simp [fetch_metrics, parse_families]

/-- Witness for C5: a 500 response yields no samples, and a malformed family
between two wellformed ones is skipped without affecting them. -/
theorem C5_witness :
    fetch_metrics (.resp 500 [some [sampleA]]) = [] ∧
    fetch_metrics (.resp 200 ([some [sampleA]] ++ none :: [some [sampleB]]))
      = fetch_metrics (.resp 200 ([some [sampleA]] ++ [some [sampleB]])) :=
  ⟨C5_fetch_errors_confirmed.2.1 500 [some [sampleA]] (by decide),
   C5_fetch_errors_confirmed.2.2 [some [sampleA]] [some [sampleB]]⟩

/-- C10 (confirmed). A sample whose label mapping has no `"machineid"` key is
routed exactly as if its key were `"machine_0"`: it is neither dropped nor
does the lookup raise, and it lands on the first shard at the base port. -/
theorem C10_missing_label_confirmed :
    ∀ (bp mpp : Int) (m : SampleRecord), m.labels.lookup machineidKey = none →
      bucketFor bp mpp m = machine_to_port bp mpp defaultMachineid ∧
      bucketFor bp mpp m = bp := by
  intro bp mpp m h
  have hget : labelsGet m.labels machineidKey defaultMachineid = defaultMachineid := by
    simp [labelsGet, h]
  have hb : bucketFor bp mpp m = machine_to_port bp mpp defaultMachineid := by
    simp [bucketFor, hget]
  refine ⟨hb, ?_⟩
  rw [hb]
  have h0 : machine_to_port bp mpp defaultMachineid = bp + Int.fdiv 0 mpp := rfl
  rw [h0, Int.zero_fdiv, add_zero]

/-- Witness for C10: a concrete sample with an empty label set is routed to
the base port 7100. -/
theorem C10_witness : bucketFor 7100 200 sampleNoId = 7100 :=
  (C10_missing_label_confirmed 7100 200 sampleNoId rfl).2


end PromSketch
